import Mathlib

/-!
Verification development for `torch2trt/module.py` (class `TensorRTModule`
and its subclass `TensorRTModuleWrapper`).

The Python module is shallowly embedded:

* a torch tensor / numpy array becomes `Tensor`: a dtype tag plus a flat
  list of rational values (and a shape, used only by the output adapter);
* the entries of `refit_weight_dict` (string-tagged dicts with keys
  `type`, `weight`, optional `bias`, and for batch-norm `running_mean`,
  `running_var`, `weight`, `bias`, `eps`) become the closed inductive
  `RefitEntry`, one constructor per branch of the `if v["type"] == ...`
  chain, with `other` for the final `else: raise NotImplementedError`;
* `state_dict` becomes an association list from parameter name to tensor;
  a failing `state_dict[name]` lookup is Python's `KeyError(name)`;
* exceptions become `Except RefitErr`;
* `np.sqrt` is an external numeric routine, abstracted as a function
  parameter `sqrtQ : ℚ → ℚ` applied elementwise;
* the mutable flags `training` / `built` / `need_refit` of the module and
  the behaviour of `__call__` become an explicit state machine `step`.
-/

namespace Torch2trt

/-- Numeric dtype tag of a tensor / numpy array. -/
inductive DType where
  | float16
  | float32
  | float64
  deriving DecidableEq, Repr

/-- A torch tensor or numpy array: dtype tag, shape, flat data.
The refit subsystem only looks at `dtype` and `data`; the inference
adapter only looks at `shape`. -/
structure Tensor where
  dtype : DType := .float32
  shape : List Nat := []
  data : List ℚ := []
  deriving DecidableEq, Repr

/-- `t.detach()` : returns the same values (autograd bookkeeping only). -/
def Tensor.detach (t : Tensor) : Tensor := t

/-- `t.cpu()` : copies to host memory; values unchanged. -/
def Tensor.cpu (t : Tensor) : Tensor := t

/-- `t.float()` : converts to 32-bit floating dtype. -/
def Tensor.float (t : Tensor) : Tensor := { t with dtype := .float32 }

/-- `t.numpy()` : a numpy view of a host tensor; values and dtype unchanged. -/
def Tensor.numpy (t : Tensor) : Tensor := t

/-- numpy dtype promotion for binary operations between float arrays. -/
def promoteDType : DType → DType → DType
  | .float64, _ => .float64
  | _, .float64 => .float64
  | .float32, _ => .float32
  | _, .float32 => .float32
  | _, _ => .float16

/-- Elementwise binary numpy operation on two arrays (dtype promotes). -/
def npBinop (f : ℚ → ℚ → ℚ) (a b : Tensor) : Tensor :=
  { dtype := promoteDType a.dtype b.dtype
    shape := a.shape
    data := List.zipWith f a.data b.data }

/-- `a + c` for an array `a` and a Python float scalar `c`
(numpy keeps the array's dtype). -/
def npAddScalar (a : Tensor) (c : ℚ) : Tensor :=
  { a with data := a.data.map (· + c) }

/-- `np.sqrt(a)`, elementwise through the abstract routine `sqrtQ`. -/
def npSqrt (sqrtQ : ℚ → ℚ) (a : Tensor) : Tensor :=
  { a with data := a.data.map sqrtQ }

/-- Unary elementwise negation `-a`. -/
def npNeg (a : Tensor) : Tensor :=
  { a with data := a.data.map (fun x => -x) }

/-- Elementwise `a / b`. -/
def npDiv : Tensor → Tensor → Tensor := npBinop (· / ·)

/-- Elementwise `a * b`. -/
def npMul : Tensor → Tensor → Tensor := npBinop (· * ·)

/-- Elementwise `a + b`. -/
def npAdd : Tensor → Tensor → Tensor := npBinop (· + ·)

/-- Dotted parameter name, key of `state_dict`. -/
abbrev ParamName := String

/-- The `state_dict` of the network: name-to-tensor mapping. -/
abbrev StateDict := List (ParamName × Tensor)

/-- `state_dict[name]` as a total lookup returning `none` on `KeyError`. -/
def StateDict.find (sd : StateDict) (n : ParamName) : Option Tensor :=
  (sd.find? (fun kv => kv.1 = n)).map Prod.snd

/-- One entry of `refit_weight_dict`: the string-tagged dict made into a
closed tagged union, one constructor per branch of the dispatch in
`refit_engine`. `other` stands for any unrecognized `type` string
(the `else: raise NotImplementedError` branch). -/
inductive RefitEntry where
  | Linear (weight : ParamName) (bias : Option ParamName)
  | Convolution (weight : ParamName) (bias : Option ParamName)
  | BatchNorm (running_mean running_var weight bias : ParamName) (eps : ℚ)
  | other (type : String)
  deriving DecidableEq, Repr

/-- TensorRT weight roles (`trt.WeightsRole`). -/
inductive WeightsRole where
  | KERNEL
  | BIAS
  | SCALE
  | SHIFT
  deriving DecidableEq, Repr

/-- Exceptions raised inside `refit_engine`. -/
inductive RefitErr where
  | KeyError (name : ParamName)
  | NotImplementedError
  | AssertionError (msg : String)
  deriving DecidableEq, Repr

/-- A `refitter.set_weights(layer, role, buffer)` call. -/
abbrev SetWeightsCall := String × WeightsRole × Tensor

/-- The per-entry body of the loop in `refit_engine`: given the layer id
`k` and the entry `v`, performs the `state_dict` lookups and (for
batch-norm) the fold arithmetic, and returns the list of `set_weights`
calls made together with the buffers appended to the `variables`
keep-alive list, in order. Mirrors `module.py` lines 79-115. -/
def processEntry (sqrtQ : ℚ → ℚ) (k : String) (v : RefitEntry)
    (state_dict : StateDict) :
    Except RefitErr (List SetWeightsCall × List Tensor) :=
  match v with
  | .Linear wname bname =>
    match state_dict.find wname with
    | none => .error (.KeyError wname)
    | some w =>
      let weight := w.detach.cpu.numpy
      match bname with
      | none => .ok ([(k, .KERNEL, weight)], [weight])
      | some bn =>
        match state_dict.find bn with
        | none => .error (.KeyError bn)
        | some b =>
          let bias := b.detach.cpu.numpy
          .ok ([(k, .KERNEL, weight), (k, .BIAS, bias)], [weight, bias])
  | .Convolution wname bname =>
    match state_dict.find wname with
    | none => .error (.KeyError wname)
    | some w =>
      let weight := w.detach.float.cpu.numpy
      match bname with
      | none => .ok ([(k, .KERNEL, weight)], [weight])
      | some bn =>
        match state_dict.find bn with
        | none => .error (.KeyError bn)
        | some b =>
          let bias := b.detach.cpu.numpy
          .ok ([(k, .KERNEL, weight), (k, .BIAS, bias)], [weight, bias])
  | .BatchNorm rmean rvar wname bname eps =>
    match state_dict.find rvar with
    | none => .error (.KeyError rvar)
    | some running_var0 =>
      match state_dict.find rmean with
      | none => .error (.KeyError rmean)
      | some running_mean0 =>
        match state_dict.find wname with
        | none => .error (.KeyError wname)
        | some weight0 =>
          match state_dict.find bname with
          | none => .error (.KeyError bname)
          | some bias0 =>
            let running_mean := running_mean0.detach.cpu.numpy
            let running_var := running_var0.detach.cpu.numpy
            let weight := weight0.detach.cpu.numpy
            let bias := bias0.detach.cpu.numpy
            let shift :=
              npAdd (npMul (npDiv (npNeg running_mean)
                (npSqrt sqrtQ (npAddScalar running_var eps))) weight) bias
            let scale :=
              npDiv weight (npSqrt sqrtQ (npAddScalar running_var eps))
            .ok ([(k, .SCALE, scale), (k, .SHIFT, shift)], [scale, shift])
  | .other _ => .error .NotImplementedError

/-- The staging loop of `refit_engine` over the whole
`refit_weight_dict`: accumulates all `set_weights` calls and the
`variables` keep-alive list; the first exception aborts the loop. -/
def stageAll (sqrtQ : ℚ → ℚ) (state_dict : StateDict) :
    List (String × RefitEntry) →
    Except RefitErr (List SetWeightsCall × List Tensor)
  | [] => .ok ([], [])
  | (k, v) :: rest =>
    match processEntry sqrtQ k v state_dict with
    | .error e => .error e
    | .ok (calls, vars) =>
      match stageAll sqrtQ state_dict rest with
      | .error e => .error e
      | .ok (calls2, vars2) => .ok (calls ++ calls2, vars ++ vars2)

/-- One weight slot of the engine: layer name and role. -/
abbrev Slot := String × WeightsRole

/-- Inputs of one run of `refit_engine`: the module's
`refit_weight_dict`, the network's `state_dict`, the refittable slots
the engine declares (queried through `refitter.get_missing`), and the
boolean result the engine's `refit_cuda_engine` would return. -/
structure RefitConfig where
  refit_weight_dict : List (String × RefitEntry)
  state_dict : StateDict
  declaredSlots : List Slot
  commitOk : Bool
  deriving Repr

/-- The message of the missing-weights assertion in `refit_engine`. -/
def missingWeightsMsg : String :=
  "Refitter found missing weights. Call set_weights() for all missing weights"

/-- The slots filled by a list of `set_weights` calls. -/
def filledSlots (calls : List SetWeightsCall) : List Slot :=
  calls.map (fun c => (c.1, c.2.1))

/-- `refitter.get_missing()`: the declared slots not filled by the given
`set_weights` calls. -/
def get_missing (declared : List Slot) (calls : List SetWeightsCall) :
    List Slot :=
  declared.filter (fun s => ¬ (filledSlots calls).contains s)

/-- `refit_engine` (`module.py` lines 70-124): stage every entry, query
the missing slots, `assert` none are missing, then `assert` the engine's
commit succeeded. On success the value is the full list of `set_weights`
calls the engine absorbed. -/
def refit_engine (sqrtQ : ℚ → ℚ) (cfg : RefitConfig) :
    Except RefitErr (List SetWeightsCall) :=
  match stageAll sqrtQ cfg.state_dict cfg.refit_weight_dict with
  | .error e => .error e
  | .ok (calls, _variables) =>
    let missingLayers := (get_missing cfg.declaredSlots calls).map Prod.fst
    if missingLayers.length = 0 then
      if cfg.commitOk then .ok calls
      else .error (.AssertionError "")
    else .error (.AssertionError missingWeightsMsg)

/-- The engine's committed weights after a `refit_engine` call that
started from committed weights `old`: an aborted transaction leaves the
previous weights in effect, a successful commit absorbs the staged ones. -/
def engineAfterRefit (sqrtQ : ℚ → ℚ) (cfg : RefitConfig)
    (old : List SetWeightsCall) : List SetWeightsCall :=
  match refit_engine sqrtQ cfg with
  | .ok calls => calls
  | .error _ => old

/-- The source names an entry reads from `state_dict`, in lookup order
(`refit_engine` reads `running_var` first for batch-norm). -/
def sourceNames : RefitEntry → List ParamName
  | .Linear w b => w :: b.toList
  | .Convolution w b => w :: b.toList
  | .BatchNorm rm rv w b _ => [rv, rm, w, b]
  | .other _ => []

/-! ### The module state machine

`TensorRTModule` holds three booleans that drive `__call__`:
`training` (from `nn.Module`, toggled externally by `train()` /
`eval()`), `built` and `need_refit`.  `TensorRTModuleWrapper.__call__`
(lines 163-186) runs the identical flag logic, only passing `self.net`
instead of `self` to build and refit. -/

/-- The flag state of a `TensorRTModule`. -/
structure ModState where
  training : Bool
  built : Bool
  need_refit : Bool
  deriving DecidableEq, Repr

/-- State after `__init__`: `nn.Module.__init__` sets `training = True`;
`TensorRTModule.__init__` sets `built = False` and `need_refit = True`. -/
def initState : ModState :=
  { training := true, built := false, need_refit := true }

/-- External events on the module: `train m` models
`nn.Module.train(m)` / `eval()` (which only set `self.training`);
`call refitOk` models one `__call__`, where `refitOk` is whether
`refit_engine` would succeed if invoked during that call. -/
inductive Event where
  | train (mode : Bool)
  | call (refitOk : Bool)
  deriving DecidableEq, Repr

/-- What one event did: whether `build_tensorrt` ran, whether
`refit_engine` was invoked, whether it committed, whether
`inference_async` was dispatched, and the value of `need_refit` at the
moment of that dispatch. -/
structure CallEffect where
  didBuild : Bool := false
  didRefit : Bool := false
  refitCommitted : Bool := false
  didInfer : Bool := false
  needRefitAtInfer : Option Bool := none
  deriving DecidableEq, Repr

/-- One step of the module: `train` only sets the flag; `call` follows
`__call__` (lines 126-146): lazily build, then if not training refit
when `need_refit` (a failed refit raises before the flag is cleared and
before inference), then dispatch inference; in training mode set
`need_refit := true` and run the wrapped network instead. -/
def step (s : ModState) (e : Event) : ModState × CallEffect :=
  match e with
  | .train m => ({ s with training := m }, {})
  | .call refitOk =>
    if s.training then
      ({ s with need_refit := true }, {})
    else
      let s1 : ModState := if s.built then s else { s with built := true }
      let didBuild := !s.built
      if s1.need_refit then
        if refitOk then
          let s2 : ModState := { s1 with need_refit := false }
          (s2, { didBuild, didRefit := true, refitCommitted := true,
                 didInfer := true, needRefitAtInfer := some s2.need_refit })
        else
          (s1, { didBuild, didRefit := true })
      else
        (s1, { didBuild, didInfer := true,
               needRefitAtInfer := some s1.need_refit })

/-- Run a list of events, collecting the per-event effects. -/
def run (s : ModState) : List Event → ModState × List CallEffect
  | [] => (s, [])
  | e :: rest =>
    ((run (step s e).1 rest).1, (step s e).2 :: (run (step s e).1 rest).2)

/-! ### Build-time input declarations and the output adapter -/

/-- TensorRT dtype tags (`trt.DataType`). -/
inductive TrtDType where
  | float32
  | float16
  | int8
  | int32
  deriving DecidableEq, Repr

/-- The attributes `TensorRTModule.__init__` stores on the instance
(engine handles and the logger are omitted as opaque; note there is no
`dtype` attribute). -/
structure InitFields where
  max_batchsize : Nat
  workspace : Nat
  built : Bool
  refit_weight_dict : List (String × RefitEntry)
  param_exclude : Option String
  output_shapes : Option (List (String × List Nat))
  output_names : Option (List String)
  need_refit : Bool
  verbose : Bool
  deriving DecidableEq, Repr

/-- `TensorRTModule.__init__(max_batchsize, workspace, dtype,
param_exclude, verbose)` (lines 11-30). -/
def TensorRTModule_init (max_batchsize workspace : Nat) (dtype : TrtDType)
    (param_exclude : Option String) (verbose : Bool) : InitFields :=
  { max_batchsize := max_batchsize
    workspace := workspace
    built := false
    refit_weight_dict := []
    param_exclude := param_exclude
    output_shapes := none
    output_names := none
    need_refit := true
    verbose := verbose }

/-- The `add_input` declarations `build_tensorrt` makes (lines 43-48):
name `input i`, shape `arg.shape[1:]`, dtype `trt.float32` — a literal,
independent of the constructor's `dtype` argument. -/
def buildInputDecls (torch_inputs : List Tensor) :
    List (String × List Nat × TrtDType) :=
  torch_inputs.enum.map
    (fun p => ("input" ++ toString p.1, p.2.shape.drop 1, TrtDType.float32))

/-- `v.view(v.shape[0], *output_shapes[k])`: reshape a flat output
buffer to batch size followed by the recorded per-sample shape. -/
def reshapeOutput (output_shapes : String → List Nat) (k : String)
    (v : Tensor) : Tensor :=
  { v with shape := v.shape.headD 0 :: output_shapes k }

/-- The output-reconstruction loop of `__call__` (lines 137-140):
`outputs = [None] * len(output_dict)`, then for each `(k, v)` of the
output mapping, `outputs[output_names.index(k)] = v.view(...)`. -/
def reconstructOutputs (output_names : List String)
    (output_shapes : String → List Nat)
    (output_dict : List (String × Tensor)) : List (Option Tensor) :=
  output_dict.foldl
    (fun outputs kv =>
      outputs.set (output_names.indexOf kv.1)
        (some (reshapeOutput output_shapes kv.1 kv.2)))
    (List.replicate output_dict.length none)

/-- The returned value: one tensor or a tuple (lines 141-143). -/
inductive InferResult where
  | single (t : Option Tensor)
  | tuple (ts : List (Option Tensor))
  deriving DecidableEq, Repr

/-- `if len(outputs) == 1: return outputs[0]; return tuple(outputs)`. -/
def packOutputs (outputs : List (Option Tensor)) : InferResult :=
  if outputs.length = 1 then .single (outputs.headD none)
  else .tuple outputs

/-! ### Concrete instances used by witnesses and counterexamples -/

/-- A concrete one-channel batch-norm parameter store:
μ = 1, σ² = 3, γ = 2, β = 5. -/
def bnStore : StateDict :=
  [("m", { data := [1] }), ("v", { data := [3] }),
   ("g", { data := [2] }), ("b", { data := [5] })]

/-- A refit configuration staging nothing while the engine declares the
kernel slot of layer `layerA`. -/
def cfgA : RefitConfig :=
  { refit_weight_dict := [], state_dict := [],
    declaredSlots := [("layerA", .KERNEL)], commitOk := true }

/-- Like `cfgA` but the engine declares the bias slot of `layerB`. -/
def cfgB : RefitConfig :=
  { refit_weight_dict := [], state_dict := [],
    declaredSlots := [("layerB", .BIAS)], commitOk := true }

/-- The missing-slot set a run of `refit_engine` would find after its
staging loop (empty when staging itself raises). -/
def refitMissing (sqrtQ : ℚ → ℚ) (cfg : RefitConfig) : List Slot :=
  match stageAll sqrtQ cfg.state_dict cfg.refit_weight_dict with
  | .ok (calls, _) => get_missing cfg.declaredSlots calls
  | .error _ => []

/-- Eval, one inference call, another inference call. -/
def evsBuild : List Event := [.train false, .call true, .call true]

/-- Eval, one inference call, switch to training mode and back without
any forward call in between, then an inference call. -/
def evsModeSwitch : List Event :=
  [.train false, .call true, .train true, .train false, .call true]

/-- Output names of an engine with two declared outputs. -/
def exNames : List String := ["output0", "output1"]

/-- The recorded per-sample output shapes `(3,)` and `(5, 5)`. -/
def exShapes : String → List Nat :=
  fun nm => if nm = "output0" then [3] else [5, 5]

/-- The engine's output mapping at batch size 4, enumerated in the
opposite of declaration order. -/
def exDict : List (String × Tensor) :=
  [("output1", { shape := [4, 25] }), ("output0", { shape := [4, 3] })]

/-! ## Claims -/

/-- C1: for every BatchNorm weight-role entry whose four source
parameters are present in the store with `channels` values each and with
`eps > 0`, the refit mapper registers exactly two buffers, under the
`SCALE` and `SHIFT` roles of that layer, and per channel `i` the scale
buffer holds `γ i / sqrt (σ² i + ε)` and the shift buffer holds
`-μ i * scale i + β i`. -/
theorem batchnorm_fold_scale_shift (sqrtQ : ℚ → ℚ) (k : String)
    (rm rv wn bn : ParamName) (eps : ℚ) (sd : StateDict)
    (mu s2 gamma beta : Tensor)
    (hrv : sd.find rv = some s2) (hrm : sd.find rm = some mu)
    (hw : sd.find wn = some gamma) (hb : sd.find bn = some beta)
    (heps : 0 < eps) :
    ∃ scale shift : Tensor,
      processEntry sqrtQ k (.BatchNorm rm rv wn bn eps) sd =
        .ok ([(k, .SCALE, scale), (k, .SHIFT, shift)], [scale, shift]) ∧
      ∀ (i : Nat) (g s m b : ℚ), gamma.data[i]? = some g → s2.data[i]? = some s →
        mu.data[i]? = some m → beta.data[i]? = some b →
        scale.data[i]? = some (g / sqrtQ (s + eps)) ∧
        shift.data[i]? = some (-m * (g / sqrtQ (s + eps)) + b) := by
  refine ⟨npDiv gamma.detach.cpu.numpy
      (npSqrt sqrtQ (npAddScalar s2.detach.cpu.numpy eps)),
    npAdd (npMul (npDiv (npNeg mu.detach.cpu.numpy)
      (npSqrt sqrtQ (npAddScalar s2.detach.cpu.numpy eps)))
      gamma.detach.cpu.numpy) beta.detach.cpu.numpy, ?_, ?_⟩
  · simp [processEntry, hrv, hrm, hw, hb]
  · intro i g s m b hg hs hm hb2
    simp only [npDiv, npMul, npAdd, npNeg, npBinop, npSqrt, npAddScalar,
      Tensor.detach, Tensor.cpu, Tensor.numpy,
      List.getElem?_zipWith, List.getElem?_map, hg, hs, hm, hb2,
      Option.map_some']
    constructor
    · trivial
    · congr 1
      ring

/-- Witness for `batchnorm_fold_scale_shift` at `bnStore`, ε = 1,
sqrt = identity. -/
theorem batchnorm_fold_scale_shift_witness :
    bnStore.find "v" = some { data := [3] } ∧
    bnStore.find "m" = some { data := [1] } ∧
    bnStore.find "g" = some { data := [2] } ∧
    bnStore.find "b" = some { data := [5] } ∧
    (0 : ℚ) < 1 ∧
    (∃ scale shift : Tensor,
      processEntry id "bn" (.BatchNorm "m" "v" "g" "b" 1) bnStore =
        .ok ([("bn", .SCALE, scale), ("bn", .SHIFT, shift)],
          [scale, shift]) ∧
      ∀ (i : Nat) (g s m b : ℚ),
        (Tensor.data { data := [2] })[i]? = some g →
        (Tensor.data { data := [3] })[i]? = some s →
        (Tensor.data { data := [1] })[i]? = some m →
        (Tensor.data { data := [5] })[i]? = some b →
        scale.data[i]? = some (g / id (s + 1)) ∧
        shift.data[i]? = some (-m * (g / id (s + 1)) + b)) :=
  ⟨by decide, by decide, by decide, by decide, by norm_num,
    batchnorm_fold_scale_shift id "bn" "m" "v" "g" "b" 1 bnStore
      { data := [1] } { data := [3] } { data := [2] } { data := [5] }
      (by decide) (by decide) (by decide) (by decide) (by norm_num)⟩

/-! ### Step and run lemmas for the flag state machine -/

theorem step_train_def (s : ModState) (m : Bool) :
    step s (.train m) = ({ s with training := m }, {}) := rfl

theorem step_training_train (s : ModState) (m : Bool) :
    ((step s (.train m)).1).training = m := rfl

theorem step_training_call (s : ModState) (ok : Bool) :
    ((step s (.call ok)).1).training = s.training := by
  by_cases ht : s.training <;> by_cases hr : s.need_refit <;>
    by_cases hb : s.built <;> cases ok <;> simp [step, ht, hr, hb]

theorem step_built_mono (s : ModState) (e : Event)
    (h : s.built = true) : ((step s e).1).built = true := by
  cases e with
  | train m => simpa [step] using h
  | call ok =>
    by_cases ht : s.training <;> by_cases hr : s.need_refit <;>
      cases ok <;> simp [step, ht, hr, h]

theorem step_built_iff (s : ModState) (e : Event) :
    ((step s e).1).built = true ↔
      s.built = true ∨ (∃ ok, e = .call ok) ∧ s.training = false := by
  cases e with
  | train m => simp [step]
  | call ok =>
    by_cases ht : s.training <;> by_cases hr : s.need_refit <;>
      by_cases hb : s.built <;> cases ok <;> simp [step, ht, hr, hb]

theorem step_didBuild_iff (s : ModState) (e : Event) :
    ((step s e).2).didBuild = true ↔
      (∃ ok, e = .call ok) ∧ s.training = false ∧ s.built = false := by
  cases e with
  | train m => simp [step]
  | call ok =>
    by_cases ht : s.training <;> by_cases hr : s.need_refit <;>
      by_cases hb : s.built <;> cases ok <;> simp [step, ht, hr, hb]

theorem step_infer_flag (s : ModState) (e : Event)
    (h : ((step s e).2).didInfer = true) :
    ((step s e).2).needRefitAtInfer = some false := by
  cases e with
  | train m => simp [step] at h
  | call ok =>
    by_cases ht : s.training <;> by_cases hr : s.need_refit <;>
      by_cases hb : s.built <;> cases ok <;> simp_all [step]

theorem run_length (s : ModState) (evs : List Event) :
    ((run s evs).2).length = evs.length := by
  induction evs generalizing s with
  | nil => rfl
  | cons e rest ih => simp [run, ih]

theorem run_append (s : ModState) (l1 l2 : List Event) :
    run s (l1 ++ l2) =
      ((run (run s l1).1 l2).1, (run s l1).2 ++ (run (run s l1).1 l2).2) := by
  induction l1 generalizing s with
  | nil => simp [run]
  | cons e rest ih => simp [run, ih]

theorem run_effect_at (s : ModState) (evs : List Event) (i : Nat)
    (ev : Event) (hev : evs[i]? = some ev) :
    ((run s evs).2)[i]? = some ((step (run s (evs.take i)).1 ev).2) := by
  induction evs generalizing s i with
  | nil => simp at hev
  | cons e rest ih =>
    cases i with
    | zero => simp_all [run]
    | succ i => simpa [run] using ih (step s e).1 i (by simpa using hev)

theorem run_take_succ (s : ModState) (evs : List Event) (i : Nat)
    (ev : Event) (hev : evs[i]? = some ev) :
    (run s (evs.take (i + 1))).1 = (step (run s (evs.take i)).1 ev).1 := by
  induction evs generalizing s i with
  | nil => simp at hev
  | cons e rest ih =>
    cases i with
    | zero => simp_all [run]
    | succ i => simpa [run] using ih (step s e).1 i (by simpa using hev)

theorem run_built_mono (s : ModState) (evs : List Event)
    (h : s.built = true) : ((run s evs).1).built = true := by
  induction evs generalizing s with
  | nil => exact h
  | cons e rest ih => exact ih _ (step_built_mono s e h)

theorem run_built_iff (s : ModState) (evs : List Event) :
    ((run s evs).1).built = true ↔
      s.built = true ∨ ∃ j ok, evs[j]? = some (.call ok) ∧
        (run s (evs.take j)).1.training = false := by
  induction evs generalizing s with
  | nil => simp [run]
  | cons e rest ih =>
    show ((run (step s e).1 rest).1).built = true ↔ _
    rw [ih]
    constructor
    · rintro (hb | ⟨j, ok, hj, ht⟩)
      · rcases (step_built_iff s e).mp hb with hb' | ⟨⟨ok, rfl⟩, ht⟩
        · exact Or.inl hb'
        · exact Or.inr ⟨0, ok, by simp, by simpa [run]⟩
      · exact Or.inr ⟨j + 1, ok, by simpa using hj, by simpa [run] using ht⟩
    · rintro (hb | ⟨j, ok, hj, ht⟩)
      · exact Or.inl (step_built_mono s e hb)
      · cases j with
        | zero =>
          simp only [List.getElem?_cons_zero, Option.some.injEq] at hj
          exact Or.inl ((step_built_iff s e).mpr
            (Or.inr ⟨⟨ok, hj⟩, by simpa [run] using ht⟩))
        | succ j =>
          exact Or.inr ⟨j, ok, by simpa using hj, by simpa [run] using ht⟩

/-- C7: over every event sequence starting from a fresh module, the
build step runs at most once (first conjunct); a call builds exactly
when the module is not in training mode and not yet built (second
conjunct); and the module is built exactly when some earlier call was
made while not in training mode — so the one build happens on the first
such call and never on a training-mode call (third conjunct). -/
theorem build_at_most_once_lazy (evs : List Event) :
    (∀ (i j : Nat) (ei ej : CallEffect), i < j →
      ((run initState evs).2)[i]? = some ei →
      ((run initState evs).2)[j]? = some ej →
      ei.didBuild = true → ej.didBuild = false) ∧
    (∀ (i : Nat) (ev : Event) (eff : CallEffect), evs[i]? = some ev →
      ((run initState evs).2)[i]? = some eff →
      (eff.didBuild = true ↔ (∃ ok, ev = .call ok) ∧
        (run initState (evs.take i)).1.training = false ∧
        (run initState (evs.take i)).1.built = false)) ∧
    (∀ i : Nat, (run initState (evs.take i)).1.built = true ↔
      ∃ j ok, j < i ∧ evs[j]? = some (.call ok) ∧
        (run initState (evs.take j)).1.training = false) := by
  have heff : ∀ (i : Nat) (eff : CallEffect),
      ((run initState evs).2)[i]? = some eff → ∃ ev, evs[i]? = some ev := by
    intro i eff h
    have hi : i < evs.length := by
      have := List.getElem?_eq_some.mp h
      rcases this with ⟨hlt, _⟩
      simpa [run_length] using hlt
    exact ⟨evs[i], List.getElem?_eq_getElem hi⟩
  have hbuilt_after : ∀ (i : Nat) (ev : Event) (eff : CallEffect),
      evs[i]? = some ev → ((run initState evs).2)[i]? = some eff →
      eff.didBuild = true → (run initState (evs.take (i + 1))).1.built = true := by
    intro i ev eff hev heffi hb
    have := run_effect_at initState evs i ev hev
    rw [heffi] at this
    have heq : eff = (step (run initState (evs.take i)).1 ev).2 :=
      Option.some.inj this
    rw [run_take_succ initState evs i ev hev]
    rcases (step_didBuild_iff _ ev).mp (heq ▸ hb) with ⟨⟨ok, rfl⟩, ht, hbf⟩
    exact (step_built_iff _ _).mpr (Or.inr ⟨⟨ok, rfl⟩, ht⟩)
  refine ⟨?_, ?_, ?_⟩
  · intro i j ei ej hij hi hj hbi
    rcases heff i ei hi with ⟨evi, hevi⟩
    rcases heff j ej hj with ⟨evj, hevj⟩
    have h1 : (run initState (evs.take (i + 1))).1.built = true :=
      hbuilt_after i evi ei hevi hi hbi
    have h2 : (run initState (evs.take j)).1.built = true := by
      have hdecomp : evs.take j = evs.take (i + 1) ++
          (List.take (j - (i + 1)) (evs.drop (i + 1))) := by
        rw [← List.take_add]
        congr 1
        omega
      rw [hdecomp, run_append]
      exact run_built_mono _ _ h1
    have := run_effect_at initState evs j evj hevj
    rw [hj] at this
    have heq : ej = (step (run initState (evs.take j)).1 evj).2 :=
      Option.some.inj this
    by_contra hne
    have hbj : ej.didBuild = true := by
      cases hx : ej.didBuild with
      | false => exact absurd hx hne
      | true => rfl
    rcases (step_didBuild_iff _ evj).mp (heq ▸ hbj) with ⟨_, _, hbf⟩
    rw [h2] at hbf
    exact Bool.true_eq_false.mp hbf
  · intro i ev eff hev heffi
    have := run_effect_at initState evs i ev hev
    rw [heffi] at this
    have heq : eff = (step (run initState (evs.take i)).1 ev).2 :=
      Option.some.inj this
    rw [heq]
    exact step_didBuild_iff _ ev
  · intro i
    rw [run_built_iff]
    constructor
    · rintro (hb | ⟨j, ok, hj, ht⟩)
      · simp [initState] at hb
      · have hji : j < i := by
          rcases List.getElem?_eq_some.mp hj with ⟨hlt, _⟩
          have := List.length_take_le i evs
          have h2 : j < min i evs.length := by simpa using hlt
          omega
        refine ⟨j, ok, hji, ?_, ?_⟩
        · rwa [List.getElem?_take, if_pos hji] at hj
        · rwa [List.take_take, min_eq_left (le_of_lt hji)] at ht
    · rintro ⟨j, ok, hji, hj, ht⟩
      refine Or.inr ⟨j, ok, ?_, ?_⟩
      · rwa [List.getElem?_take, if_pos hji]
      · rwa [List.take_take, min_eq_left (le_of_lt hji)]

/-- Witness for `build_at_most_once_lazy` on the trace `evsBuild`:
the second call does not build again (first conjunct), the first
non-training call builds (second conjunct), and after the whole trace
the module is built because of that call (third conjunct). -/
theorem build_at_most_once_lazy_witness :
    CallEffect.didBuild
      { didInfer := true, needRefitAtInfer := some false } = false ∧
    (CallEffect.didBuild
      { didBuild := true, didRefit := true, refitCommitted := true,
        didInfer := true, needRefitAtInfer := some false } = true ↔
      (∃ ok, Event.call true = .call ok) ∧
      (run initState (evsBuild.take 1)).1.training = false ∧
      (run initState (evsBuild.take 1)).1.built = false) ∧
    ((run initState (evsBuild.take 3)).1.built = true ↔
      ∃ j ok, j < 3 ∧ evsBuild[j]? = some (.call ok) ∧
        (run initState (evsBuild.take j)).1.training = false) :=
  ⟨(build_at_most_once_lazy evsBuild).1 1 2
      { didBuild := true, didRefit := true, refitCommitted := true,
        didInfer := true, needRefitAtInfer := some false }
      { didInfer := true, needRefitAtInfer := some false }
      (by norm_num) (by decide) (by decide) (by decide),
   (build_at_most_once_lazy evsBuild).2.1 1 (.call true)
      { didBuild := true, didRefit := true, refitCommitted := true,
        didInfer := true, needRefitAtInfer := some false }
      (by decide) (by decide),
   (build_at_most_once_lazy evsBuild).2.2 3⟩

/-- C3 (amended): the execution context is never invoked while
`need_refit` is true — on any trace, every effect that dispatched
inference saw `need_refit = false` at the dispatch (first conjunct);
a non-training call made while `need_refit` is true and whose refit
succeeds runs exactly one refit transaction, commits it, clears the
flag, and only then dispatches inference (second conjunct); and a
forward call made while in training mode leaves the flag set across a
switch back to inference mode (third conjunct).  The unamended claim's
stronger reading — that a mode round-trip alone forces the next
inference call to refit — is false, see
`mode_switch_no_refit_counterexample`. -/
theorem never_infer_while_refit_needed :
    (∀ (evs : List Event) (i : Nat) (eff : CallEffect),
      ((run initState evs).2)[i]? = some eff → eff.didInfer = true →
      eff.needRefitAtInfer = some false) ∧
    (∀ s : ModState, s.training = false → s.need_refit = true →
      (step s (.call true)).2.didRefit = true ∧
      (step s (.call true)).2.refitCommitted = true ∧
      (step s (.call true)).1.need_refit = false ∧
      (step s (.call true)).2.didInfer = true ∧
      (step s (.call true)).2.needRefitAtInfer = some false) ∧
    (∀ (s : ModState) (ok : Bool),
      ((run s [.train true, .call ok, .train false]).1).need_refit = true) := by
  refine ⟨?_, ?_, ?_⟩
  · intro evs i eff heffi hinf
    have hi : i < evs.length := by
      rcases List.getElem?_eq_some.mp heffi with ⟨hlt, _⟩
      simpa [run_length] using hlt
    have hev : evs[i]? = some evs[i] := List.getElem?_eq_getElem hi
    have := run_effect_at initState evs i evs[i] hev
    rw [heffi] at this
    have heq := Option.some.inj this
    rw [heq] at hinf ⊢
    exact step_infer_flag _ _ hinf
  · intro s ht hr
    by_cases hb : s.built <;> simp [step, ht, hr, hb]
  · intro s ok
    simp [run, step]

/-- Counterexample to C3 as stated: on `evsModeSwitch` the module
switches from inference mode to training mode and back with no forward
call in between; the claim demands that the very next inference call
(index 4) trigger exactly one refit, but its effect shows no refit ran
(`didRefit = false`) while inference was dispatched. -/
theorem mode_switch_no_refit_counterexample :
    ((run initState evsModeSwitch).2)[4]? =
      some { didInfer := true, needRefitAtInfer := some false } ∧
    (run initState evsModeSwitch).1.need_refit = false := by decide

/-- C4 (amended): `need_refit` is true at construction (first
conjunct); every forward call made while in training mode sets it
(second conjunct); a bare mode transition `train()`/`eval()` leaves it
unchanged (third conjunct); and the only step that clears a set flag is
a non-training call whose refit transaction committed successfully
(fourth conjunct).  The unamended claim — that the flag is set on the
transition into training mode itself — is false, see
`train_transition_counterexample`. -/
theorem need_refit_flag_lifecycle :
    initState.need_refit = true ∧
    (∀ (s : ModState) (ok : Bool), s.training = true →
      (step s (.call ok)).1.need_refit = true) ∧
    (∀ (s : ModState) (m : Bool),
      (step s (.train m)).1.need_refit = s.need_refit) ∧
    (∀ (s : ModState) (e : Event), s.need_refit = true →
      ((step s e).1).need_refit = false →
      ∃ ok, e = .call ok ∧ ok = true ∧ s.training = false ∧
        ((step s e).2).refitCommitted = true) := by
  refine ⟨rfl, ?_, ?_, ?_⟩
  · intro s ok ht
    simp [step, ht]
  · intro s m
    rfl
  · intro s e hr hclear
    cases e with
    | train m => simp [step] at hclear; rw [hr] at hclear; exact absurd hclear (by simp)
    | call ok =>
      by_cases ht : s.training <;> by_cases hb : s.built <;>
        cases ok <;> simp_all [step]

/-- Counterexample to C4 as stated: after an inference call clears the
flag, the transition `train()` into training mode (last event) does not
set `need_refit`; the module is in training mode with the flag still
false, though the claim demands it be set unconditionally on that
transition. -/
theorem train_transition_counterexample :
    ((run initState [Event.train false, .call true, .train true]).1).training
        = true ∧
    ((run initState [Event.train false, .call true, .train true]).1).need_refit
        = false := by decide

/-- Witness for `never_infer_while_refit_needed`: the second event of
`evsBuild` is an inference call, its effect dispatched inference with
`need_refit = false`; a not-training state with the flag set refits on
call; a training-mode forward call keeps the flag set. -/
theorem never_infer_while_refit_needed_witness :
    CallEffect.needRefitAtInfer
      { didBuild := true, didRefit := true, refitCommitted := true,
        didInfer := true, needRefitAtInfer := some false } = some false ∧
    ((step ⟨false, true, true⟩ (.call true)).2.didRefit = true ∧
      (step ⟨false, true, true⟩ (.call true)).2.refitCommitted = true ∧
      (step ⟨false, true, true⟩ (.call true)).1.need_refit = false ∧
      (step ⟨false, true, true⟩ (.call true)).2.didInfer = true ∧
      (step ⟨false, true, true⟩ (.call true)).2.needRefitAtInfer = some false) ∧
    ((run initState [.train true, .call true, .train false]).1).need_refit
        = true :=
  ⟨never_infer_while_refit_needed.1 evsBuild 1
      { didBuild := true, didRefit := true, refitCommitted := true,
        didInfer := true, needRefitAtInfer := some false }
      (by decide) (by decide),
   never_infer_while_refit_needed.2.1 ⟨false, true, true⟩ rfl rfl,
   never_infer_while_refit_needed.2.2 initState true⟩

/-- Witness for `need_refit_flag_lifecycle`: a training-mode call from
the initial state keeps the flag set; a bare `eval()` transition leaves
it unchanged; and the clearing step of `evsBuild`'s first call is a
committed refit. -/
theorem need_refit_flag_lifecycle_witness :
    (step initState (.call true)).1.need_refit = true ∧
    (step initState (.train false)).1.need_refit = initState.need_refit ∧
    (∃ ok, Event.call true = .call ok ∧ ok = true ∧
      ModState.training ⟨false, false, true⟩ = false ∧
      ((step ⟨false, false, true⟩ (.call true)).2).refitCommitted = true) :=
  ⟨need_refit_flag_lifecycle.2.1 initState true rfl,
   need_refit_flag_lifecycle.2.2.1 initState false,
   need_refit_flag_lifecycle.2.2.2 ⟨false, false, true⟩ (.call true)
      rfl (by decide)⟩

/-- C2 (amended): whenever staging succeeded but the engine declares a
slot the transaction did not fill, `refit_engine` raises the
missing-weights `AssertionError` before ever reaching
`refit_cuda_engine`, and the engine's previously committed weights
remain in effect.  The unamended claim also demands that the error list
exactly the unfilled slots, which the fixed-message assertion does not
do — see `incomplete_refit_error_lists_nothing`. -/
theorem refit_incomplete_aborts (sqrtQ : ℚ → ℚ) (cfg : RefitConfig)
    (calls : List SetWeightsCall) (vars : List Tensor)
    (old : List SetWeightsCall)
    (hstage : stageAll sqrtQ cfg.state_dict cfg.refit_weight_dict =
      .ok (calls, vars))
    (hmiss : get_missing cfg.declaredSlots calls ≠ []) :
    refit_engine sqrtQ cfg = .error (.AssertionError missingWeightsMsg) ∧
    engineAfterRefit sqrtQ cfg old = old := by
  have h1 : refit_engine sqrtQ cfg =
      .error (.AssertionError missingWeightsMsg) := by
    unfold refit_engine
    rw [hstage]
    have hne : ¬ ((get_missing cfg.declaredSlots calls).map Prod.fst).length
        = 0 := by
      rw [List.length_map, List.length_eq_zero]
      exact hmiss
    simp only [hne, if_false]
  exact ⟨h1, by simp [engineAfterRefit, h1]⟩

/-- Counterexample to C2 as stated: two configurations whose unfilled
slot sets differ (kernel of `layerA` versus bias of `layerB`) make
`refit_engine` fail with the very same fixed-message error, so the
raised error cannot list exactly the unfilled slots. -/
theorem incomplete_refit_error_lists_nothing :
    refit_engine id cfgA = refit_engine id cfgB ∧
    refit_engine id cfgA = .error (.AssertionError missingWeightsMsg) ∧
    refitMissing id cfgA ≠ refitMissing id cfgB :=
  ⟨rfl, rfl, by decide⟩

/-- Witness for `refit_incomplete_aborts` at `cfgA` with one previously
committed kernel weight. -/
theorem refit_incomplete_aborts_witness :
    (stageAll id cfgA.state_dict cfgA.refit_weight_dict = .ok ([], []) ∧
      get_missing cfgA.declaredSlots [] ≠ []) ∧
    (refit_engine id cfgA = .error (.AssertionError missingWeightsMsg) ∧
      engineAfterRefit id cfgA [("w", .KERNEL, {})] =
        [("w", .KERNEL, {})]) :=
  ⟨⟨rfl, by decide⟩,
   refit_incomplete_aborts id cfgA [] [] [("w", .KERNEL, {})]
     rfl (by decide)⟩

theorem processEntry_calls_in_vars (sqrtQ : ℚ → ℚ) (k : String)
    (v : RefitEntry) (sd : StateDict) (calls : List SetWeightsCall)
    (vars : List Tensor)
    (h : processEntry sqrtQ k v sd = .ok (calls, vars)) :
    ∀ c ∈ calls, c.2.2 ∈ vars := by
  cases v <;> simp only [processEntry] at h <;> repeat' split at h
  all_goals simp at h
  all_goals obtain ⟨rfl, rfl⟩ := h
  all_goals intro c hc
  all_goals simp only [List.mem_cons, List.mem_singleton] at hc ⊢
  all_goals rcases hc with rfl | hc <;> simp_all

theorem stageAll_take_subset (sqrtQ : ℚ → ℚ) (sd : StateDict)
    (entries : List (String × RefitEntry)) (n : Nat)
    (calls : List SetWeightsCall) (vars : List Tensor)
    (calls' : List SetWeightsCall) (vars' : List Tensor)
    (h : stageAll sqrtQ sd entries = .ok (calls, vars))
    (h' : stageAll sqrtQ sd (entries.take n) = .ok (calls', vars')) :
    vars' ⊆ vars := by
  induction entries generalizing n calls vars calls' vars' with
  | nil =>
    simp only [List.take_nil, stageAll, Except.ok.injEq, Prod.mk.injEq] at h'
    obtain ⟨rfl, rfl⟩ := h'
    exact List.nil_subset _
  | cons kv rest ih =>
    obtain ⟨k, v⟩ := kv
    cases n with
    | zero =>
      simp only [List.take_zero, stageAll, Except.ok.injEq,
        Prod.mk.injEq] at h'
      obtain ⟨rfl, rfl⟩ := h'
      exact List.nil_subset _
    | succ n =>
      simp only [List.take_succ_cons, stageAll] at h h'
      cases hp : processEntry sqrtQ k v sd with
      | error e => rw [hp] at h; exact absurd h (by simp)
      | ok p =>
        obtain ⟨c1, v1⟩ := p
        rw [hp] at h h'
        cases hs : stageAll sqrtQ sd rest with
        | error e => rw [hs] at h; exact absurd h (by simp)
        | ok q =>
          obtain ⟨c2, v2⟩ := q
          rw [hs] at h
          cases hs' : stageAll sqrtQ sd (rest.take n) with
          | error e => rw [hs'] at h'; exact absurd h' (by simp)
          | ok q' =>
            obtain ⟨c2', v2'⟩ := q'
            rw [hs'] at h'
            simp only [Except.ok.injEq, Prod.mk.injEq] at h h'
            obtain ⟨rfl, rfl⟩ := h
            obtain ⟨rfl, rfl⟩ := h'
            intro x hx
            rcases List.mem_append.mp hx with hx1 | hx2
            · exact List.mem_append.mpr (Or.inl hx1)
            · exact List.mem_append.mpr
                (Or.inr (ih n c2 v2 c2' v2' hs hs' hx2))

/-- C5: for any refit staging that completed (reaching the commit
call), every buffer registered with the engine through `set_weights` is
an element of the `variables` keep-alive list that the function still
holds when `refit_cuda_engine` runs (first conjunct), and the
keep-alive list only grows while staging proceeds: the buffers held
after any prefix of the entries are still held, unreplaced, at commit
time (second conjunct). -/
theorem staged_buffers_retained (sqrtQ : ℚ → ℚ) (sd : StateDict)
    (entries : List (String × RefitEntry)) (calls : List SetWeightsCall)
    (vars : List Tensor)
    (h : stageAll sqrtQ sd entries = .ok (calls, vars)) :
    (∀ c ∈ calls, c.2.2 ∈ vars) ∧
    ∀ (n : Nat) (calls' : List SetWeightsCall) (vars' : List Tensor),
      stageAll sqrtQ sd (entries.take n) = .ok (calls', vars') →
      vars' ⊆ vars := by
  constructor
  · induction entries generalizing calls vars with
    | nil =>
      simp only [stageAll, Except.ok.injEq, Prod.mk.injEq] at h
      obtain ⟨rfl, rfl⟩ := h
      simp
    | cons kv rest ih =>
      obtain ⟨k, v⟩ := kv
      simp only [stageAll] at h
      cases hp : processEntry sqrtQ k v sd with
      | error e => rw [hp] at h; exact absurd h (by simp)
      | ok p =>
        obtain ⟨c1, v1⟩ := p
        rw [hp] at h
        cases hs : stageAll sqrtQ sd rest with
        | error e => rw [hs] at h; exact absurd h (by simp)
        | ok q =>
          obtain ⟨c2, v2⟩ := q
          rw [hs] at h
          simp only [Except.ok.injEq, Prod.mk.injEq] at h
          obtain ⟨rfl, rfl⟩ := h
          intro c hc
          rcases List.mem_append.mp hc with hc1 | hc2
          · exact List.mem_append.mpr
              (Or.inl (processEntry_calls_in_vars sqrtQ k v sd c1 v1 hp c hc1))
          · exact List.mem_append.mpr (Or.inr (ih c2 v2 hs c hc2))
  · intro n calls' vars' h'
    exact stageAll_take_subset sqrtQ sd entries n calls vars calls' vars' h h'

/-- Witness for `staged_buffers_retained`: a linear layer with a bias,
both buffers present in the keep-alive list at commit time. -/
theorem staged_buffers_retained_witness :
    (∀ c ∈ ([("fc", WeightsRole.KERNEL, ({ data := [1] } : Tensor)),
        ("fc", WeightsRole.BIAS, ({ data := [2] } : Tensor))] :
        List SetWeightsCall),
      c.2.2 ∈ ([{ data := [1] }, { data := [2] }] : List Tensor)) ∧
    ∀ (n : Nat) (calls' : List SetWeightsCall) (vars' : List Tensor),
      stageAll id [("w", { data := [1] }), ("b", { data := [2] })]
        ([(("fc", RefitEntry.Linear "w" (some "b")))].take n) =
        .ok (calls', vars') →
      vars' ⊆ ([{ data := [1] }, { data := [2] }] : List Tensor) :=
  staged_buffers_retained id
    [("w", { data := [1] }), ("b", { data := [2] })]
    [("fc", RefitEntry.Linear "w" (some "b"))]
    [("fc", .KERNEL, { data := [1] }), ("fc", .BIAS, { data := [2] })]
    [{ data := [1] }, { data := [2] }] rfl

/-- C8: for every recognized weight-role entry, if any of its
`source_names` is absent from the parameter store, `processEntry` fails
with `KeyError m` for a missing name `m` — a distinct, inspectable
error surfaced immediately to the caller (the functional result is the
error itself; nothing is retried). -/
theorem missing_param_keyerror (sqrtQ : ℚ → ℚ) (k : String)
    (v : RefitEntry) (sd : StateDict)
    (hmiss : ∃ n ∈ sourceNames v, sd.find n = none) :
    ∃ m ∈ sourceNames v, sd.find m = none ∧
      processEntry sqrtQ k v sd = .error (.KeyError m) := by
  obtain ⟨n, hn, hnone⟩ := hmiss
  cases v with
  | Linear wname bname =>
    cases hw : sd.find wname with
    | none =>
      exact ⟨wname, by simp [sourceNames], hw, by simp [processEntry, hw]⟩
    | some w =>
      cases bname with
      | none =>
        simp only [sourceNames, Option.toList_none, List.mem_singleton,
          List.mem_cons, List.not_mem_nil, or_false] at hn
        rw [hn, hw] at hnone
        exact absurd hnone (by simp)
      | some bn =>
        have hor : n = wname ∨ n = bn := by simpa [sourceNames] using hn
        have hnb : n = bn := by
          rcases hor with rfl | rfl
          · rw [hw] at hnone; exact absurd hnone (by simp)
          · rfl
        subst hnb
        exact ⟨n, by simp [sourceNames], hnone,
          by simp [processEntry, hw, hnone]⟩
  | Convolution wname bname =>
    cases hw : sd.find wname with
    | none =>
      exact ⟨wname, by simp [sourceNames], hw, by simp [processEntry, hw]⟩
    | some w =>
      cases bname with
      | none =>
        simp only [sourceNames, Option.toList_none, List.mem_singleton,
          List.mem_cons, List.not_mem_nil, or_false] at hn
        rw [hn, hw] at hnone
        exact absurd hnone (by simp)
      | some bn =>
        have hor : n = wname ∨ n = bn := by simpa [sourceNames] using hn
        have hnb : n = bn := by
          rcases hor with rfl | rfl
          · rw [hw] at hnone; exact absurd hnone (by simp)
          · rfl
        subst hnb
        exact ⟨n, by simp [sourceNames], hnone,
          by simp [processEntry, hw, hnone]⟩
  | BatchNorm rm rv wname bname eps =>
    cases hrv : sd.find rv with
    | none =>
      exact ⟨rv, by simp [sourceNames], hrv, by simp [processEntry, hrv]⟩
    | some trv =>
      cases hrm : sd.find rm with
      | none =>
        exact ⟨rm, by simp [sourceNames], hrm,
          by simp [processEntry, hrv, hrm]⟩
      | some trm =>
        cases hw : sd.find wname with
        | none =>
          exact ⟨wname, by simp [sourceNames], hw,
            by simp [processEntry, hrv, hrm, hw]⟩
        | some tw =>
          cases hb : sd.find bname with
          | none =>
            exact ⟨bname, by simp [sourceNames], hb,
              by simp [processEntry, hrv, hrm, hw, hb]⟩
          | some tb =>
            have hor : n = rv ∨ n = rm ∨ n = wname ∨ n = bname := by
              simpa [sourceNames] using hn
            rcases hor with rfl | rfl | rfl | rfl
            · rw [hrv] at hnone; exact absurd hnone (by simp)
            · rw [hrm] at hnone; exact absurd hnone (by simp)
            · rw [hw] at hnone; exact absurd hnone (by simp)
            · rw [hb] at hnone; exact absurd hnone (by simp)
  | other ty => simp [sourceNames] at hn

/-- Witness for `missing_param_keyerror`: a linear entry whose bias
name is absent from the store. -/
theorem missing_param_keyerror_witness :
    (∃ n ∈ sourceNames (.Linear "w" (some "missing")),
      StateDict.find [("w", { data := [1] })] n = none) ∧
    ∃ m ∈ sourceNames (.Linear "w" (some "missing")),
      StateDict.find [("w", { data := [1] })] m = none ∧
      processEntry id "fc" (.Linear "w" (some "missing"))
        [("w", { data := [1] })] = .error (.KeyError m) :=
  ⟨⟨"missing", by simp [sourceNames], by decide⟩,
   missing_param_keyerror id "fc" (.Linear "w" (some "missing"))
     [("w", { data := [1] })] ⟨"missing", by simp [sourceNames], by decide⟩⟩

/-- C9: with the same weight tensor `t` in the store, a Convolution
entry stages its kernel through `.float()` — the staged buffer's dtype
is 32-bit float whatever `t.dtype` was — while a Linear entry stages
the kernel without that coercion, keeping `t.dtype` unchanged: the
numeric-type policy is asymmetric between the two kinds. -/
theorem conv_kernel_coerced_linear_not (sqrtQ : ℚ → ℚ) (k : String)
    (wname : ParamName) (bname : Option ParamName) (sd : StateDict)
    (t : Tensor) (hw : sd.find wname = some t)
    (convCalls : List SetWeightsCall) (convVars : List Tensor)
    (linCalls : List SetWeightsCall) (linVars : List Tensor)
    (hconv : processEntry sqrtQ k (.Convolution wname bname) sd =
      .ok (convCalls, convVars))
    (hlin : processEntry sqrtQ k (.Linear wname bname) sd =
      .ok (linCalls, linVars)) :
    ((k, .KERNEL, t.detach.float.cpu.numpy) ∈ convCalls ∧
      (t.detach.float.cpu.numpy).dtype = .float32) ∧
    ((k, .KERNEL, t.detach.cpu.numpy) ∈ linCalls ∧
      (t.detach.cpu.numpy).dtype = t.dtype) := by
  cases bname with
  | none =>
    simp only [processEntry, hw] at hconv hlin
    simp only [Except.ok.injEq, Prod.mk.injEq] at hconv hlin
    obtain ⟨rfl, rfl⟩ := hconv
    obtain ⟨rfl, rfl⟩ := hlin
    refine ⟨⟨by simp, rfl⟩, ⟨by simp, rfl⟩⟩
  | some bn =>
    cases hb : sd.find bn with
    | none =>
      simp [processEntry, hw, hb] at hconv
    | some tb =>
      simp only [processEntry, hw, hb] at hconv hlin
      simp only [Except.ok.injEq, Prod.mk.injEq] at hconv hlin
      obtain ⟨rfl, rfl⟩ := hconv
      obtain ⟨rfl, rfl⟩ := hlin
      refine ⟨⟨by simp, rfl⟩, ⟨by simp, rfl⟩⟩

/-- Witness for `conv_kernel_coerced_linear_not` on a half-precision
kernel: the convolution path stages it as float32, the linear path
leaves it float16. -/
theorem conv_kernel_coerced_linear_not_witness :
    ((("cv" : String), WeightsRole.KERNEL,
        Tensor.numpy (Tensor.cpu (Tensor.float (Tensor.detach
          { dtype := .float16, data := [1] })))) ∈
      ([("cv", WeightsRole.KERNEL, ({ dtype := .float32, data := [1] } :
        Tensor))] : List SetWeightsCall) ∧
      (Tensor.numpy (Tensor.cpu (Tensor.float (Tensor.detach
        ({ dtype := .float16, data := [1] } : Tensor))))).dtype =
        .float32) ∧
    ((("cv" : String), WeightsRole.KERNEL,
        Tensor.numpy (Tensor.cpu (Tensor.detach
          { dtype := .float16, data := [1] }))) ∈
      ([("cv", WeightsRole.KERNEL, ({ dtype := .float16, data := [1] } :
        Tensor))] : List SetWeightsCall) ∧
      (Tensor.numpy (Tensor.cpu (Tensor.detach
        ({ dtype := .float16, data := [1] } : Tensor)))).dtype =
        ({ dtype := .float16, data := [1] } : Tensor).dtype) :=
  conv_kernel_coerced_linear_not id "cv" "w" none
    [("w", { dtype := .float16, data := [1] })]
    { dtype := .float16, data := [1] } (by decide)
    [("cv", .KERNEL, { dtype := .float32, data := [1] })]
    [{ dtype := .float32, data := [1] }]
    [("cv", .KERNEL, { dtype := .float16, data := [1] })]
    [{ dtype := .float16, data := [1] }] rfl rfl

/-- C10: the `dtype` constructor argument is dead: `__init__` stores
the same attributes whatever value is passed (it never stores `dtype`,
which does not appear among `InitFields`), and `build_tensorrt`
declares every engine input with the literal `trt.float32`, so the
module's observable behavior is identical across any two `dtype`
arguments. -/
theorem dtype_argument_ignored :
    (∀ (mb ws : Nat) (d1 d2 : TrtDType) (pe : Option String) (vb : Bool),
      TensorRTModule_init mb ws d1 pe vb =
        TensorRTModule_init mb ws d2 pe vb) ∧
    (∀ args : List Tensor,
      ((buildInputDecls args).map (fun d => d.2.2)).all
        (fun t => t == TrtDType.float32) = true) := by
  constructor
  · intro mb ws d1 d2 pe vb
    rfl
  · intro args
    simp only [buildInputDecls, List.all_eq_true, List.mem_map]
    rintro t ⟨d, ⟨p, hp, rfl⟩, rfl⟩
    rfl

theorem reconstruct_length (names : List String)
    (shapes : String → List Nat) (l : List (String × Tensor))
    (init : List (Option Tensor)) :
    (l.foldl (fun outputs kv =>
      outputs.set (names.indexOf kv.1)
        (some (reshapeOutput shapes kv.1 kv.2))) init).length =
      init.length := by
  induction l generalizing init with
  | nil => rfl
  | cons kv rest ih => simp [ih, List.length_set]

theorem fold_set_untouched (names : List String)
    (shapes : String → List Nat) (l : List (String × Tensor))
    (init : List (Option Tensor)) (i : Nat)
    (h : ∀ kv ∈ l, names.indexOf kv.1 ≠ i) :
    (l.foldl (fun outputs kv =>
      outputs.set (names.indexOf kv.1)
        (some (reshapeOutput shapes kv.1 kv.2))) init)[i]? = init[i]? := by
  induction l generalizing init with
  | nil => rfl
  | cons kv rest ih =>
    rw [List.foldl_cons, ih _ (fun x hx => h x (List.mem_cons_of_mem kv hx)),
      List.getElem?_set_ne (h kv (List.mem_cons_self kv rest))]

theorem fold_set_hit (names : List String) (shapes : String → List Nat)
    (l1 l2 : List (String × Tensor)) (k0 : String) (v0 : Tensor)
    (init : List (Option Tensor))
    (hidx : names.indexOf k0 < init.length)
    (hafter : ∀ kv ∈ l2, names.indexOf kv.1 ≠ names.indexOf k0) :
    ((l1 ++ (k0, v0) :: l2).foldl (fun outputs kv =>
      outputs.set (names.indexOf kv.1)
        (some (reshapeOutput shapes kv.1 kv.2))) init)[names.indexOf k0]? =
      some (some (reshapeOutput shapes k0 v0)) := by
  rw [List.foldl_append, List.foldl_cons,
    fold_set_untouched names shapes l2 _ _ hafter, List.getElem?_set]
  have hlen : (l1.foldl (fun outputs kv =>
      outputs.set (names.indexOf kv.1)
        (some (reshapeOutput shapes kv.1 kv.2))) init).length =
      init.length := reconstruct_length names shapes l1 init
  simp [hlen, hidx]

theorem lookup_of_split (l1 l2 : List (String × Tensor)) (nm : String)
    (v0 : Tensor) (hnotin : ∀ kv ∈ l1, kv.1 ≠ nm) :
    List.lookup nm (l1 ++ (nm, v0) :: l2) = some v0 := by
  induction l1 with
  | nil => simp [List.lookup_cons]
  | cons kv rest ih =>
    have hne : (nm == kv.1) = false := by
      have := hnotin kv (List.mem_cons_self kv rest)
      simp [Ne.symm this]
    rw [List.cons_append]
    obtain ⟨k1, v1⟩ := kv
    rw [List.lookup_cons]
    simp only [hne]
    exact ih (fun x hx => hnotin x (List.mem_cons_of_mem _ hx))

/-- C6: when the engine's output mapping enumerates, in any order, one
flat buffer per declared output name, the reconstruction loop reshapes
each flat buffer to batch size followed by the shape recorded for its
name (first conjunct is the reshape rule) and produces the outputs
ordered by output declaration order, regardless of the mapping's
enumeration order (second conjunct); with exactly one declared output
the call returns the single reshaped tensor, otherwise the tuple in
declaration order (last two conjuncts). -/
theorem outputs_ordered_by_declaration (names : List String)
    (shapes : String → List Nat) (dict : List (String × Tensor))
    (hperm : List.Perm (dict.map Prod.fst) names) (hnd : names.Nodup) :
    (∀ (nm : String) (v : Tensor),
      (reshapeOutput shapes nm v).shape = v.shape.headD 0 :: shapes nm) ∧
    reconstructOutputs names shapes dict =
      names.map (fun nm =>
        (List.lookup nm dict).map (reshapeOutput shapes nm)) ∧
    (names.length = 1 →
      packOutputs (reconstructOutputs names shapes dict) =
        .single ((names.map (fun nm =>
          (List.lookup nm dict).map (reshapeOutput shapes nm))).headD none)) ∧
    (names.length ≠ 1 →
      packOutputs (reconstructOutputs names shapes dict) =
        .tuple (names.map (fun nm =>
          (List.lookup nm dict).map (reshapeOutput shapes nm)))) := by
  have hkeysnd : (dict.map Prod.fst).Nodup := hperm.symm.nodup hnd
  have hdictlen : dict.length = names.length := by
    have := hperm.length_eq
    simpa [List.length_map] using this
  have hmain : reconstructOutputs names shapes dict =
      names.map (fun nm =>
        (List.lookup nm dict).map (reshapeOutput shapes nm)) := by
    apply List.ext_getElem?
    intro i
    by_cases hi : i < names.length
    · have hnm : names[i] ∈ names := List.getElem_mem hi
      have hnmk : names[i] ∈ dict.map Prod.fst := hperm.mem_iff.mpr hnm
      obtain ⟨kv, hkv, hk⟩ := List.mem_map.mp hnmk
      obtain ⟨k0, v0⟩ := kv
      simp only at hk
      obtain ⟨l1, l2, hsplit⟩ := List.append_of_mem hkv
      have hkeys : dict.map Prod.fst =
          l1.map Prod.fst ++ k0 :: l2.map Prod.fst := by
        rw [hsplit]; simp
      rw [hkeys] at hkeysnd
      have hnotin1 : ∀ kv ∈ l1, kv.1 ≠ k0 := by
        intro x hx heq
        have hdisj := (List.nodup_append.mp hkeysnd).2.2
        exact hdisj (List.mem_map_of_mem Prod.fst hx)
          (heq ▸ List.mem_cons_self _ _)
      have hnotin2 : k0 ∉ l2.map Prod.fst := by
        have h2 := (List.nodup_append.mp hkeysnd).2.1
        exact (List.nodup_cons.mp h2).1
      have hidxi : names.indexOf k0 = i := by
        rw [hk]
        exact List.indexOf_getElem hnd i hi
      have hidxlt : names.indexOf k0 < names.length := by
        rw [hidxi]; exact hi
      have hafter : ∀ kv ∈ l2,
          names.indexOf kv.1 ≠ names.indexOf k0 := by
        intro x hx heq
        have hxk : x.1 ∈ dict.map Prod.fst := by
          rw [hsplit]
          exact List.mem_map_of_mem Prod.fst
            (List.mem_append.mpr (Or.inr (List.mem_cons_of_mem _ hx)))
        have hxn : x.1 ∈ names := hperm.mem_iff.mp hxk
        have hx1 : names.indexOf x.1 < names.length :=
          List.indexOf_lt_length.mpr hxn
        have hx2 : names[names.indexOf x.1]? = some x.1 := by
          rw [List.getElem?_eq_getElem hx1, List.getElem_indexOf hx1]
        have hx3 : names[names.indexOf k0]? = some k0 := by
          rw [List.getElem?_eq_getElem hidxlt, List.getElem_indexOf hidxlt]
        rw [heq] at hx2
        have hxeq : x.1 = k0 := Option.some.inj (hx2.symm.trans hx3)
        exact hnotin2 (hxeq ▸ List.mem_map_of_mem Prod.fst hx)
      have hlhs : (reconstructOutputs names shapes dict)[i]? =
          some (some (reshapeOutput shapes k0 v0)) := by
        rw [← hidxi]
        unfold reconstructOutputs
        rw [hsplit]
        refine fold_set_hit names shapes l1 l2 k0 v0 _ ?_ hafter
        rw [List.length_replicate, ← hsplit, hdictlen, hidxi]
        exact hi
      have hrhs : (names.map (fun nm =>
          (List.lookup nm dict).map (reshapeOutput shapes nm)))[i]? =
          some (some (reshapeOutput shapes k0 v0)) := by
        rw [List.getElem?_map, List.getElem?_eq_getElem hi]
        simp only [Option.map_some']
        rw [← hk, hsplit, lookup_of_split l1 l2 k0 v0 hnotin1]
        rfl
      rw [hlhs, hrhs]
    · have h1 : (reconstructOutputs names shapes dict).length ≤ i := by
        unfold reconstructOutputs
        rw [reconstruct_length, List.length_replicate, hdictlen]
        omega
      have h2 : (names.map (fun nm =>
          (List.lookup nm dict).map (reshapeOutput shapes nm))).length ≤ i := by
        rw [List.length_map]
        omega
      rw [List.getElem?_eq_none h1, List.getElem?_eq_none h2]
  refine ⟨fun nm v => rfl, hmain, ?_, ?_⟩
  · intro h1
    rw [hmain]
    unfold packOutputs
    rw [if_pos (by rw [List.length_map]; exact h1)]
  · intro h1
    rw [hmain]
    unfold packOutputs
    rw [if_neg (by rw [List.length_map]; exact h1)]

/-- Witness for `outputs_ordered_by_declaration` on the two-output
engine `exDict` (shapes `(3,)` and `(5, 5)`, batch 4) whose mapping
enumerates in reverse declaration order: the reconstruction still lists
`output0` first and the call returns the 2-tuple. -/
theorem outputs_ordered_by_declaration_witness :
    List.Perm (exDict.map Prod.fst) exNames ∧ exNames.Nodup ∧
    (reshapeOutput exShapes "output0" { shape := [4, 3] }).shape =
      (Tensor.shape { shape := [4, 3] }).headD 0 :: exShapes "output0" ∧
    reconstructOutputs exNames exShapes exDict =
      exNames.map (fun nm =>
        (List.lookup nm exDict).map (reshapeOutput exShapes nm)) ∧
    packOutputs (reconstructOutputs exNames exShapes exDict) =
      .tuple (exNames.map (fun nm =>
        (List.lookup nm exDict).map (reshapeOutput exShapes nm))) :=
  ⟨by decide, by decide,
   (outputs_ordered_by_declaration exNames exShapes exDict
       (by decide) (by decide)).1 "output0" { shape := [4, 3] },
   (outputs_ordered_by_declaration exNames exShapes exDict
       (by decide) (by decide)).2.1,
   (outputs_ordered_by_declaration exNames exShapes exDict
       (by decide) (by decide)).2.2.2 (by decide)⟩

end Torch2trt
